import Mathlib

/-!
Verification of the SEC-filing parsing pipeline (`src/parsers/parser_10-k.py`
and `src/parsers/parser_4.py`): text normalisation, the canonical section
catalog, heading classification, the document walker, table capture,
chunking, tag extraction and the batch orchestrator.

Strings are embedded as `List Char` / `String`.  The source applies
`unicodedata.normalize("NFC", ·)` and `unidecode(·)`; on ASCII input both
libraries are the identity, and every theorem below that quantifies over
input text restricts it to ASCII, so these two steps are embedded as the
identity function.  All other steps of the Python code are translated
directly.
-/

set_option maxRecDepth 40000

namespace SFT

/-- The ASCII apostrophe character (codepoint 39). -/
def apos : Char := Char.ofNat 39

/-- Membership in `NON_PRINTING` (`parser_10-k.py` line 110): the four
zero-width characters removed by `clean_text`. -/
def isZW (c : Char) : Bool :=
  c == '\u200B' || c == '\u200C' || c == '\u200D' || c == '\u2060'

/-- The horizontal-whitespace class `[ \t\r\f\v]` of the `re.sub` in
`clean_text` (`parser_10-k.py` line 120).  Newline is *not* in this class. -/
def isHWS (c : Char) : Bool :=
  c == ' ' || c == '\t' || c == '\r' || c == Char.ofNat 12 || c == Char.ofNat 11

/-- ASCII fragment of Python's whitespace class (`str.split()`, `str.strip()`,
regex `\s`): horizontal whitespace plus newline. -/
def isPyWS (c : Char) : Bool := isHWS c || c == '\n'

/-- Does the string start with the five characters `&amp;`?  Mirrors the
pattern matched by Python's `text.replace("&amp;", "&")`. -/
def ampHere (c : Char) (rest : List Char) : Bool :=
  c == '&' && rest.take 4 == ['a', 'm', 'p', ';']

/-- Python `text.replace("&amp;", "&")`: leftmost non-overlapping
replacement of every occurrence, continuing after the replacement. -/
def replaceAmp : List Char → List Char
  | '&' :: 'a' :: 'm' :: 'p' :: ';' :: rest => '&' :: replaceAmp rest
  | c :: rest => c :: replaceAmp rest
  | [] => []

/-- Is `&amp;` present anywhere in the string (at the positions the
replacement scan would see)? -/
def containsAmp : List Char → Bool
  | [] => false
  | c :: rest => ampHere c rest || containsAmp rest

/-- `unicodedata.normalize("NFC", text)`: the identity on ASCII text, which
is the domain all theorems below restrict to. -/
def nfcNormalize (l : List Char) : List Char := l

/-- `unidecode(text)`: codepoints below 128 pass through unchanged, so this
is the identity on the ASCII domain used by the theorems below. -/
def unidecodeLatin (l : List Char) : List Char := l

/-- One pass of `re.sub(r"[ \t\r\f\v]+", " ", ·)`: every maximal run of
characters satisfying `p` becomes a single space. -/
def collapseBy (p : Char → Bool) : List Char → List Char
  | [] => []
  | [c] => if p c then [' '] else [c]
  | c1 :: c2 :: rest =>
    if p c1 && p c2 then collapseBy p (c2 :: rest)
    else (if p c1 then ' ' else c1) :: collapseBy p (c2 :: rest)

/-- Remove trailing characters satisfying `p` (the right half of
Python's `str.strip()`). -/
def dropEndBy (p : Char → Bool) (l : List Char) : List Char :=
  (l.reverse.dropWhile p).reverse

/-- Python `str.strip()` restricted to ASCII whitespace: drop leading and
trailing characters satisfying `p`. -/
def stripBy (p : Char → Bool) (l : List Char) : List Char :=
  dropEndBy p (l.dropWhile p)

/-- `clean_text` of `parser_10-k.py` (lines 112-120): remove zero-width
characters, decode `&amp;`, NFC-normalise, transliterate, collapse
horizontal whitespace and strip. -/
def cleanText (l : List Char) : List Char :=
  stripBy isPyWS
    (collapseBy isHWS
      (unidecodeLatin (nfcNormalize (replaceAmp (l.filter (fun c => !isZW c))))))

/-- `clean_text` on `String`s, including the `if not text: return ""`
early exit. -/
def cleanTextS (s : String) : String :=
  if s = "" then "" else String.mk (cleanText s.data)

/-- `clean_text` applied to an optional (`None`-able) argument: `None` is
falsy in Python, so it also takes the early exit to `""`. -/
def cleanTextOpt : Option String → String
  | none => ""
  | some s => cleanTextS s

/-- Worker for Python `str.split()`: `acc` is the current word (reversed),
`out` the words emitted so far. -/
def splitWSacc (acc : List Char) (out : List (List Char)) : List Char → List (List Char)
  | [] => out ++ (if acc.isEmpty then [] else [acc.reverse])
  | c :: rest =>
    if isPyWS c then
      splitWSacc [] (out ++ (if acc.isEmpty then [] else [acc.reverse])) rest
    else splitWSacc (c :: acc) out rest

/-- Python `str.split()` (no separator): split on runs of whitespace,
discarding empty fields. -/
def splitWS (l : List Char) : List (List Char) := splitWSacc [] [] l

/-- `token_count` (`parser_10-k.py` line 122): `len(txt.split())`. -/
def tokenCount (s : String) : Nat := (splitWS s.data).length

/-- `" ".join(words)` for a list of words represented as `List Char`. -/
def joinSp (ws : List (List Char)) : List Char := List.intercalate [' '] ws

/-- Does `l` start with the sequence `p`? (Python substring test helper.) -/
def startsSeq : List Char → List Char → Bool
  | [], _ => true
  | _ :: _, [] => false
  | p :: ps, c :: cs => p == c && startsSeq ps cs

/-- Python's `pat in l` substring containment: some position of `l` starts
with `pat` (the empty pattern is contained in everything). -/
def containsSeq (pat : List Char) : List Char → Bool
  | [] => startsSeq pat []
  | c :: rest => startsSeq pat (c :: rest) || containsSeq pat rest

/-- Python `str.lower()` followed by `.replace("–", "-").replace("—", "-")`
as used in `match_section`; the input is `clean_text` output, hence ASCII,
where `.lower()` is the ASCII case map. -/
def lowerDash (l : List Char) : List Char :=
  l.map (fun c => if c == '–' || c == '—' then '-' else c.toLower)

/-- The canonical 10-K section label for Item 7; its apostrophe is built
with `apos` (`Management's Discussion & Analysis`). -/
def mdaLabel : String :=
  "Part II – Item 7. Management" ++ apos.toString ++ "s Discussion & Analysis (MD&A)"

/-- `RAW_CANON_SECTIONS` (`parser_10-k.py` lines 69-99), verbatim. -/
def RAW_CANON_SECTIONS : List String := [
  "Cover Page",
  "Table of Contents",
  "Forward-Looking Statements",
  "Part I – Item 1. Business",
  "Part I – Item 1A. Risk Factors",
  "Part I – Item 1B. Unresolved Staff Comments",
  "Part I – Item 1C. Cybersecurity",
  "Part I – Item 2. Properties",
  "Part I – Item 3. Legal Proceedings",
  "Part I – Item 4. Mine Safety Disclosures",
  "Part II – Item 5. Market for Registrants Common Equity, Related Stockholder Matters & Issuer Purchases of Equity Securities",
  "Part II – Item 6. [Reserved]",
  mdaLabel,
  "Part II – Item 7A. Quantitative & Qualitative Disclosures About Market Risk",
  "Part II – Item 8. Financial Statements & Supplementary Data",
  "Part II – Item 9. Changes in & Disagreements With Accountants",
  "Part II – Item 9A. Controls & Procedures",
  "Part II – Item 9B. Other Information",
  "Part II – Item 9C. Foreign Jurisdiction Audit Inspection Disclosure",
  "Part III – Item 10. Directors, Executive Officers & Corporate Governance",
  "Part III – Item 11. Executive Compensation",
  "Part III – Item 12. Security Ownership of Certain Beneficial Owners & Management",
  "Part III – Item 13. Certain Relationships & Related Transactions",
  "Part III – Item 14. Principal Accounting Fees & Services",
  "Part IV – Item 15. Exhibits & Financial-Statement Schedules",
  "Part IV – Item 16. Form 10-K Summary",
  "Certifications",
  "Signatures",
  "Exhibits Index"]

/-- ASCII letter test for the `[a-zA-Z]` class of `ITEM_ID_RE`. -/
def isAsciiAlpha (c : Char) : Bool := c.isUpper || c.isLower

/-- Attempt to match `item\s+(\d{1,2}[a-zA-Z]?)` (case-insensitive) at the
head of `l`, returning the captured group.  `\d{1,2}` and `[a-zA-Z]?` are
greedy; nothing follows the group, so no backtracking can occur. -/
def itemAt (l : List Char) : Option (List Char) :=
  match l with
  | a :: b :: c :: d :: rest =>
    if (a.toLower == 'i' && b.toLower == 't' && c.toLower == 'e' && d.toLower == 'm')
        && (match rest.head? with
            | some w => isPyWS w
            | none => false) then
      match rest.dropWhile isPyWS with
      | d1 :: t1 =>
        if d1.isDigit then
          match t1 with
          | d2 :: t2 =>
            if d2.isDigit then
              match t2 with
              | a3 :: _ => if isAsciiAlpha a3 then some [d1, d2, a3] else some [d1, d2]
              | [] => some [d1, d2]
            else if isAsciiAlpha d2 then some [d1, d2] else some [d1]
          | [] => some [d1]
        else none
      | [] => none
    else none
  | _ => none

/-- `ITEM_ID_RE.search`: scan left to right for the first position where
`item\s+(\d{1,2}[a-zA-Z]?)` matches, returning the captured group. -/
def findItemId : List Char → Option (List Char)
  | [] => none
  | c :: rest =>
    match itemAt (c :: rest) with
    | some g => some g
    | none => findItemId rest

/-- `m.group(1).upper()`: ASCII upper-casing of the captured group. -/
def upperStr (g : List Char) : String := String.mk (g.map Char.toUpper)

/-- `ITEM_MAP` (`parser_10-k.py` lines 102-106) as an insertion-ordered
association list: each canonical label whose text matches `ITEM_ID_RE`
contributes the entry `"ITEM " + id.upper() ↦ label`.  The 23 extracted ids
are pairwise distinct, so first-match lookup coincides with the Python
dict. -/
def ITEM_MAP : List (String × String) :=
  RAW_CANON_SECTIONS.foldl
    (fun m canon =>
      match findItemId canon.data with
      | some g => m ++ [("ITEM " ++ upperStr g, canon)]
      | none => m) []

/-- Python `dict.get`: first-match lookup in the association list. -/
def itemLookup (key : String) : Option String :=
  (ITEM_MAP.find? (fun p => p.1 == key)).map (fun p => p.2)

/-- The phrase-based fallback of `match_section` (lines 154-158): the first
canonical label (in catalog order) whose lowered, dash-normalised text is a
substring of the lowered, dash-normalised cleaned input. -/
def phraseFallback (lowered : List Char) : Option String :=
  RAW_CANON_SECTIONS.find? (fun canon => containsSeq (lowerDash canon.data) lowered)

/-- `match_section` (`parser_10-k.py` lines 150-158): clean the text; if the
item-number regex matches anywhere, return the `ITEM_MAP` lookup of the
captured id (even when the lookup misses); otherwise fall back to phrase
containment. -/
def matchSection (text : String) : Option String :=
  let cleaned := cleanText text.data
  match findItemId cleaned with
  | some g => itemLookup ("ITEM " ++ upperStr g)
  | none => phraseFallback (lowerDash cleaned)

/-- ASCII fragment of the regex class `\w`: letters, digits, underscore. -/
def isWordChar (c : Char) : Bool := c.isAlphanum || c == '_'

/-- A character the tail of a capitalised word may contain: `[\w’']`
(`CAP_SEQ`, `parser_10-k.py` line 172). -/
def isCapTail (c : Char) : Bool := isWordChar c || c == '’' || c == apos

/-- Match `[A-Z][\w’']*` at the head of `l`: one capital letter and its
greedy tail.  Returns the matched word and the remaining input. -/
def capWordAt : List Char → Option (List Char × List Char)
  | [] => none
  | c :: rest =>
    if c.isUpper then
      some (c :: rest.takeWhile isCapTail, rest.dropWhile isCapTail)
    else none

/-- Greedily match `(?:\s+[A-Z][\w’']*)*`: repeatedly consume a nonempty
whitespace run followed by a capitalised word, as long as both succeed.
Returns (consumed extension, remaining input).  Each step consumes at
least one character, so the structural `fuel` (always called with fuel
exceeding the input length) never runs out. -/
def capSeqExtF : Nat → List Char → List Char × List Char
  | 0, rest => ([], rest)
  | fuel + 1, rest =>
    if (rest.takeWhile isPyWS).isEmpty then ([], rest)
    else
      match capWordAt (rest.dropWhile isPyWS) with
      | none => ([], rest)
      | some (w, r3) =>
        let p := capSeqExtF fuel r3
        (rest.takeWhile isPyWS ++ w ++ p.1, p.2)

/-- `CAP_SEQ.finditer` worker: scan left to right; at each position try to
match a capitalised-word sequence; on success record it and continue after
the match (matches never overlap).  `fuel` as in `capSeqExtF`. -/
def capFindF : Nat → List Char → List (List Char)
  | 0, _ => []
  | fuel + 1, l =>
    match l with
    | [] => []
    | c :: rest =>
      match capWordAt (c :: rest) with
      | some (w, r2) =>
        let p := capSeqExtF fuel r2
        (w ++ p.1) :: capFindF fuel p.2
      | none => capFindF fuel rest

/-- `CAP_SEQ.finditer` (`parser_10-k.py` line 172): all matches of the
capitalised-phrase pattern, left to right. -/
def capFind (l : List Char) : List (List Char) := capFindF (l.length + 1) l

/-- Lexicographic (codepoint) strict comparison on character lists: the
order Python uses to compare strings. -/
def lexLt : List Char → List Char → Bool
  | [], [] => false
  | [], _ :: _ => true
  | _ :: _, [] => false
  | a :: as, b :: bs => if a == b then lexLt as bs else decide (a < b)

/-- Insert a string into a list sorted by `key`-image under `lexLt`
(insertion before the first element not strictly smaller). -/
def insertByKey (key : String → List Char) (x : String) : List String → List String
  | [] => [x]
  | y :: ys =>
    if lexLt (key y) (key x) then y :: insertByKey key x ys else x :: y :: ys

/-- Insertion sort by `key`-image: the behaviour of Python
`sorted(strs, key=...)` (ties cannot arise in the inputs we evaluate, so
stability is immaterial). -/
def sortByKey (key : String → List Char) (l : List String) : List String :=
  l.foldr (insertByKey key) []

/-- Append `x` if not already present: set insertion with the membership
test of Python `set.add`. -/
def addUnique (acc : List String) (x : String) : List String :=
  if acc.contains x then acc else acc ++ [x]

/-- `extract_tags` (`parser_10-k.py` lines 174-181): every maximal
capitalised phrase of the heading is a tag; a multi-word phrase also
contributes its last word; the set is returned sorted case-insensitively
(`key=str.lower`, ASCII). -/
def extractTags (heading : String) : List String :=
  let phrases := capFind heading.data
  let tags := phrases.foldl
    (fun acc ph =>
      let acc1 := addUnique acc (String.mk ph)
      let ws := splitWS ph
      if ws.length > 1 then addUnique acc1 (String.mk (ws.getLastD []))
      else acc1) []
  sortByKey (fun s => s.data.map Char.toLower) tags

/-- One table cell: its extracted text (`get_text(" ", strip=True)`) and
whether the cell carries `th` markup. -/
structure HCell where
  txt : String
  isTh : Bool
deriving DecidableEq, Repr

/-- A `<table>` element as the walker sees it: the `tr` rows, each a list
of `th`/`td` cells.  (`tbl.find("th")` is modelled as a search over these
cells: a `th` outside any `tr` does not occur in the documents modelled
here.) -/
structure HTable where
  rows : List (List HCell)
deriving DecidableEq, Repr

/-- `tbl.find("th")` truthiness: some cell of some row is a header cell. -/
def findTh (t : HTable) : Bool := t.rows.any (fun r => r.any (fun c => c.isTh))

/-- The captured-table record built by `table_to_dict`. -/
structure TableDict where
  headers : List String
  data : List (List String)
  pre_context : String
  post_context : String
deriving DecidableEq, Repr

/-- `table_to_dict` (`parser_10-k.py` lines 127-138): every row's cells are
cleaned; `headers` is the FIRST row whenever any `th` exists anywhere in
the table (`rows[0] if tbl.find("th") else []`), and `data` is all rows. -/
def tableToDict (t : HTable) (pre post : String) : TableDict :=
  let rows := t.rows.map (fun r => r.map (fun c => cleanTextS c.txt))
  { headers := if findTh t then rows.headD [] else []
    data := rows
    pre_context := pre
    post_context := post }

/-- One markdown table line: `"|" + "|".join(cells) + "|\n"`. -/
def rowLine (cells : List String) : String :=
  "|" ++ String.intercalate "|" cells ++ "|\n"

/-- Python `str.strip()` on a `String`. -/
def pyStripS (s : String) : String := String.mk (stripBy isPyWS s.data)

/-- The markdown accumulation of `dict_to_markdown` given the effective
header row: header line, separator line, then one line per element of
`data[1:]`, finally `str.strip()`-ed. -/
def mdAssemble (hdrs : List String) (data : List (List String)) : String :=
  pyStripS ((data.drop 1).foldl (fun acc r => acc ++ rowLine r)
    (rowLine hdrs ++ rowLine (hdrs.map (fun _ => "---"))))

/-- The concatenation of the markdown lines of a list of rows (used to
state what `dict_to_markdown`'s accumulation loop produces). -/
def mdLinesCat (rows : List (List String)) : String :=
  rows.foldr (fun r acc => rowLine r ++ acc) ""

/-- `dict_to_markdown` (`parser_10-k.py` lines 140-146).  When `headers` is
empty, Python evaluates `["" for _ in tbl["data"][0]]`, which raises
`IndexError` when `data` is also empty: that outcome is `none`. -/
def dictToMarkdown (t : TableDict) : Option String :=
  match t.headers, t.data with
  | [], [] => none
  | [], d0 :: drest => some (mdAssemble (d0.map (fun _ => "")) (d0 :: drest))
  | h :: hs, d => some (mdAssemble (h :: hs) d)

/-- `TOKEN_LIMIT` (`parser_10-k.py` line 32). -/
abbrev TOKEN_LIMIT : Nat := 512

/-- `TOKEN_OVERLAP = int(TOKEN_LIMIT * 0.12)` (line 33): `int` truncates
`61.44` to 61, i.e. `512 * 12 / 100` in integer arithmetic. -/
abbrev TOKEN_OVERLAP : Nat := 512 * 12 / 100

/-- Chunk metadata as produced by `build_meta` (`parser_10-k.py` lines
257-274); the Python key `section` is the field `sectionLabel`. -/
structure ChunkMeta where
  sectionLabel : String
  start_token : Nat
  end_token : Nat
  token_count : Nat
  accession : String
  filing_date : String
  ticker : String
  source_url : String
  tags : List String
deriving DecidableEq, Repr

/-- One emitted chunk: text plus metadata. -/
structure Chunk where
  text : String
  meta : ChunkMeta
deriving DecidableEq, Repr

/-- `build_meta` (lines 257-274): provenance metadata for a chunk span.
`source_url` is the link-map lookup of the accession, defaulting to `""`
(the missing-sources set the Python code also maintains carries no
information used by any claim and is omitted). -/
def buildMeta (secName accession filingDate ticker : String)
    (linkMap : List (String × String)) (s e : Nat) : ChunkMeta :=
  { sectionLabel := secName
    start_token := s
    end_token := e
    token_count := e - s
    accession := accession
    filing_date := filingDate
    ticker := ticker
    source_url := ((linkMap.find? (fun p => p.1 == accession)).map (fun p => p.2)).getD ""
    tags := extractTags secName }

/-- The `while start < tokens` loop of the chunker (`parser_10-k.py` lines
292-301): emit `[start, min(start+512, tokens))`; stop when the end reaches
`tokens`, else restart at `end - 61`. -/
def chunkLoop (words : List (List Char)) (tokens : Nat)
    (bm : Nat → Nat → ChunkMeta) (start : Nat) : List Chunk :=
  if h : start < tokens then
    let e := min (start + TOKEN_LIMIT) tokens
    let ck : Chunk :=
      { text := String.mk (joinSp ((words.drop start).take (e - start)))
        meta := bm start e }
    if he : e = tokens then [ck] else ck :: chunkLoop words tokens bm (e - TOKEN_OVERLAP)
  else []
termination_by tokens - start
decreasing_by
  show tokens - (min (start + 512) tokens - 61) < tokens - start
  have h2 : ¬ (min (start + 512) tokens = tokens) := he
  omega

/-- The per-section chunk emission (`parser_10-k.py` lines 288-301): one
chunk `[0, tokens)` when `tokens <= 512`, else the overlap loop. -/
def chunkSection (bm : Nat → Nat → ChunkMeta) (plain : String) : List Chunk :=
  let tokens := tokenCount plain
  if tokens ≤ TOKEN_LIMIT then [{ text := plain, meta := bm 0 tokens }]
  else chunkLoop (splitWS plain.data) tokens bm 0

/-- A node of the `body.descendants` sequence as the walker consumes it:
either a bare text node (`NavigableString`, skipped by the
`isinstance(node, Tag)` guard but visible to the pre/post context lookups)
or an element tag with its name, `style` attribute, extracted text
(`get_text(" ", strip=True)`) and, when the tag is a `<table>`, its rows. -/
inductive HNode where
  | str (text : String)
  | tag (name : String) (style : String) (text : String) (tbl : HTable)
deriving DecidableEq, Repr

/-- `node.get_text(" ", strip=True)`, available on `Tag` and
`NavigableString` alike. -/
def getText : HNode → String
  | .str t => t
  | .tag _ _ t _ => t

/-- Python `str.isupper()` on ASCII: at least one cased character and no
lower-case one. -/
def pyIsUpper (l : List Char) : Bool :=
  l.any (fun c => c.isAlpha) && l.all (fun c => !c.isLower)

/-- `detect_subheading` (`parser_10-k.py` lines 160-168); `txt` is the
cleaned node text, recomputed identically by the Python function. -/
def detectSubheading (name style : String) (txt : List Char) : Bool :=
  name == "b" || name == "strong"
    || containsSeq "bold".data (style.data.map Char.toLower)
    || containsSeq "font-weight:700".data (style.data.map Char.toLower)
    || (pyIsUpper txt && (1 < (splitWS txt).length && (splitWS txt).length ≤ 12))

/-- Per-section accumulation state (`parser_10-k.py` lines 198-207): the
value of each entry of the `sections` dict. -/
structure SectData where
  html_blocks : List String
  subsections : List (String × List String)
  tables : List TableDict
  chunks : List Chunk
  missing : Bool
deriving DecidableEq, Repr

/-- The empty `SectData` every canonical label starts with. -/
def emptySect : SectData := ⟨[], [], [], [], true⟩

/-- The `sections` dict as an insertion-ordered association list. -/
abbrev Sections := List (String × SectData)

/-- Update the entry of key `lab` (Python `sections[lab] ...` mutation;
`lab` is always a key, so the no-op branch is unreachable in practice). -/
def updSec (m : Sections) (lab : String) (f : SectData → SectData) : Sections :=
  m.map (fun p => if p.1 == lab then (p.1, f p.2) else p)

/-- `defaultdict(list)` append: extend the bucket of `key`, creating it at
the end (insertion order) when absent. -/
def subApp (subs : List (String × List String)) (key txt : String) :
    List (String × List String) :=
  if subs.any (fun p => p.1 == key) then
    subs.map (fun p => if p.1 == key then (p.1, p.2 ++ [txt]) else p)
  else subs ++ [(key, [txt])]

/-- The uncaught Python exceptions a per-file parse can raise in the
modelled fragment. -/
inductive PErr where
  | indexError
deriving DecidableEq, Repr

/-- Walker state: the sections map plus `current_section` and
`current_sub` (`parser_10-k.py` lines 211-212). -/
structure WalkSt where
  secs : Sections
  cur : Option String
  sub : Option String
deriving DecidableEq, Repr

/-- `nodes[i-1]` context text for a table (`""` when `i == 0`, from the
Python `if i else ""`). -/
def preCtx (nodes : List HNode) (i : Nat) : String :=
  if i = 0 then "" else cleanTextS (getText ((nodes.get? (i - 1)).getD (HNode.str "")))

/-- `nodes[i+1]` context text for a table (`""` at the end of the node
list). -/
def postCtx (nodes : List HNode) (i : Nat) : String :=
  if i + 1 < nodes.length then cleanTextS (getText ((nodes.get? (i + 1)).getD (HNode.str "")))
  else ""

/-- One iteration of the walker loop (`parser_10-k.py` lines 214-252):
skip non-tags and empty texts; a section heading switches state; text
before the first heading is dropped; subheadings set `current_sub`;
tables are captured and rendered (an `IndexError` from the renderer aborts
the parse); other text is routed to the current (sub)section bucket. -/
def walkStep (nodes : List HNode) (i : Nat) (node : HNode) (st : WalkSt) :
    Except PErr WalkSt :=
  match node with
  | .str _ => .ok st
  | .tag name style rawText tbl =>
    let txt := cleanText rawText.data
    if txt.isEmpty then .ok st
    else
      match matchSection (String.mk txt) with
      | some canon =>
        .ok ⟨updSec st.secs canon (fun s => { s with missing := false }), some canon, none⟩
      | none =>
        match st.cur with
        | none => .ok st
        | some cur =>
          if detectSubheading name style txt then
            .ok { st with sub := some (String.mk txt) }
          else if name == "table" then
            let pre := preCtx nodes i
            let post := postCtx nodes i
            let td := tableToDict tbl pre post
            match dictToMarkdown td with
            | none => .error .indexError
            | some md =>
              .ok { st with secs := updSec st.secs cur (fun s =>
                { s with
                  tables := s.tables ++ [td]
                  html_blocks := s.html_blocks ++ [pre ++ "\n\n" ++ md ++ "\n\n" ++ post] }) }
          else
            match st.sub with
            | none =>
              .ok { st with secs := updSec st.secs cur (fun s =>
                { s with html_blocks := s.html_blocks ++ [String.mk txt] }) }
            | some sub =>
              .ok { st with secs := updSec st.secs cur (fun s =>
                { s with subsections := subApp s.subsections sub (String.mk txt) }) }

/-- Run the walker over the enumerated node sequence, propagating the
first uncaught exception. -/
def walkAux (nodes : List HNode) : List (Nat × HNode) → WalkSt → Except PErr WalkSt
  | [], st => .ok st
  | (i, n) :: rest, st =>
    match walkStep nodes i n st with
    | .ok st2 => walkAux nodes rest st2
    | .error e => .error e

/-- The flattened section text fed to the chunker (`parser_10-k.py` lines
281-285): `"\n".join(html_blocks + chain(subsections.values()))`. -/
def plainTextOf (s : SectData) : String :=
  String.intercalate "\n" (s.html_blocks ++ (s.subsections.map (fun p => p.2)).flatten)

/-- The chunk-emission pass over `sections.items()` (`parser_10-k.py`
lines 276-301): missing sections are skipped (their `chunks` stay empty);
the rest get their chunk list from the chunker. -/
def chunkPhase (accession filingDate ticker : String)
    (linkMap : List (String × String)) (m : Sections) : Sections :=
  m.map (fun p =>
    if p.2.missing then p
    else (p.1,
      { p.2 with chunks :=
          chunkSection (buildMeta p.1 accession filingDate ticker linkMap) (plainTextOf p.2) }))

/-- `parse_10k_file` (`parser_10-k.py` lines 185-318) restricted to its
sections output: walk the node sequence from the empty scaffold, then emit
chunks.  The surrounding `meta` dict (ticker, fiscal year, timestamps) and
the missing-source set carry no information any claim refers to. -/
def parse10kFile (nodes : List HNode) (accession filingDate ticker : String)
    (linkMap : List (String × String)) : Except PErr Sections :=
  match walkAux nodes nodes.enum ⟨RAW_CANON_SECTIONS.map (fun lab => (lab, emptySect)), none, none⟩ with
  | .error e => .error e
  | .ok st => .ok (chunkPhase accession filingDate ticker linkMap st.secs)

/-- The per-file loop of `main` (`parser_10-k.py` lines 373-387): each
file is parsed inside `try`; success increments `success` and writes the
artifact; any exception increments `fail` and the batch continues.
Returns `(success, fail, written artifacts)`. -/
def runBatch {α β : Type} (parse : α → Except PErr β) (files : List α) :
    Nat × Nat × List (α × β) :=
  files.foldl (fun acc fp =>
    match parse fp with
    | .ok d => (acc.1 + 1, acc.2.1, acc.2.2 ++ [(fp, d)])
    | .error _ => (acc.1, acc.2.1 + 1, acc.2.2)) (0, 0, [])

/-- `clean_text` of `parser_4.py` (lines 86-90): remove zero-width
characters, replace `\n` by a space, collapse every whitespace run to a
single space and strip. -/
def cleanText4 (l : List Char) : List Char :=
  stripBy isPyWS
    (collapseBy isPyWS ((l.filter (fun c => !isZW c)).map (fun c => if c == '\n' then ' ' else c)))

/-- `clean_text` of `parser_4.py` on `String`s. -/
def cleanText4S (s : String) : String := String.mk (cleanText4 s.data)

/-- `FORM4_CANON_SECTIONS` (`parser_4.py` lines 60-69), verbatim. -/
def FORM4_CANON_SECTIONS : List String := [
  "Cover Page & Statement Date",
  "Issuer Information",
  "Reporting Owner Information",
  "Table I – Non-Derivative Securities Acquired/Disposed/Owned",
  "Table II – Derivative Securities Acquired/Disposed/Owned",
  "Footnotes/Remarks",
  "Signature",
  "Date Signed"]

/-- The character class `[A-Z0-9&\-]` of `parser_4.py`'s `CAP_SEQ`
(line 84). -/
def isCapTail4 (c : Char) : Bool := c.isUpper || c.isDigit || c == '&' || c == '-'

/-- Match `[A-Z][A-Z0-9&\-]*` at the head of the input. -/
def capWordAt4 : List Char → Option (List Char × List Char)
  | [] => none
  | c :: rest =>
    if c.isUpper then some (c :: rest.takeWhile isCapTail4, rest.dropWhile isCapTail4)
    else none

/-- Match one `(?: [A-Z0-9&\-]+)` continuation: a literal space followed
by a nonempty class run. -/
def contWordAt4 : List Char → Option (List Char × List Char)
  | [] => none
  | c :: rest =>
    if c == ' ' then
      if (rest.takeWhile isCapTail4).isEmpty then none
      else some (c :: rest.takeWhile isCapTail4, rest.dropWhile isCapTail4)
    else none

/-- Greedy `(?: [A-Z0-9&\-]+)*`: consume continuations while they match.
`fuel` as in `capSeqExtF`: every continuation consumes at least two
characters, so a fuel exceeding the input length never runs out. -/
def capSeqExt4F : Nat → List Char → List Char × List Char
  | 0, rest => ([], rest)
  | fuel + 1, rest =>
    match contWordAt4 rest with
    | none => ([], rest)
    | some (w, r2) =>
      let p := capSeqExt4F fuel r2
      (w ++ p.1, p.2)

/-- `CAP_SEQ.finditer` worker for the Form 4 pattern. -/
def capFind4F : Nat → List Char → List (List Char)
  | 0, _ => []
  | fuel + 1, l =>
    match l with
    | [] => []
    | c :: rest =>
      match capWordAt4 (c :: rest) with
      | some (w, r2) =>
        let p := capSeqExt4F fuel r2
        (w ++ p.1) :: capFind4F fuel p.2
      | none => capFind4F fuel rest

/-- `CAP_SEQ.finditer` for the Form 4 pattern (`parser_4.py` line 84). -/
def capFind4 (l : List Char) : List (List Char) := capFind4F (l.length + 1) l

/-- `extract_tags` of `parser_4.py` (lines 95-102): capitalised phrases of
the upper-cased heading, plus last words of multi-word phrases, plainly
sorted (codepoint order). -/
def extractTags4 (heading : String) : List String :=
  let phrases := capFind4 (heading.data.map Char.toUpper)
  let tags := phrases.foldl
    (fun acc ph =>
      let acc1 := addUnique acc (String.mk ph)
      if ph.contains ' ' then addUnique acc1 (String.mk ((splitWS ph).getLastD []))
      else acc1) []
  sortByKey (fun s => s.data) tags

/-- `markdown_table` (`parser_4.py` lines 104-109): header line, separator
line, one line per row, right-stripped. -/
def markdownTable4 (headers : List String) (rows : List (List String)) : String :=
  String.mk (dropEndBy isPyWS
    ((rows.foldl (fun acc r => acc ++ rowLine r)
      (rowLine headers ++ rowLine (headers.map (fun _ => "---")))).data))

/-- `issuer` block fields (`findtext` with default `""`). -/
structure F4Issuer where
  issuerCik : String
  issuerName : String
  issuerTradingSymbol : String
deriving DecidableEq, Repr

/-- One `nonDerivativeTransaction` (the five extracted `findtext` paths,
`None` collapsed to `""` by the Python `or ""`). -/
structure F4Tx where
  securityTitle : String
  transactionShares : String
  transactionPrice : String
  sharesAfter : String
  ownership : String
deriving DecidableEq, Repr

/-- One `nonDerivativeHolding`. -/
structure F4Hold where
  securityTitle : String
  sharesAfter : String
  ownership : String
deriving DecidableEq, Repr

/-- One `derivativeTransaction`. -/
structure F4DTx where
  securityTitle : String
  underlyingShares : String
  price : String
  expiration : String
  shares : String
  ownership : String
deriving DecidableEq, Repr

/-- One `derivativeHolding`. -/
structure F4DHold where
  securityTitle : String
  underlyingShares : String
  expiration : String
  ownership : String
deriving DecidableEq, Repr

/-- `reportingOwner` block fields. -/
structure F4Owner where
  rptOwnerCik : String
  rptOwnerName : String
  street1 : String
  city : String
  state : String
  zip : String
  isOfficer : String
  officerTitle : String
deriving DecidableEq, Repr

/-- One `footnote` element: its `id` attribute and text. -/
structure F4Note where
  id : String
  text : String
deriving DecidableEq, Repr

/-- A parsed Form 4 XML tree restricted to the paths `parse_form4_xml`
reads. `Option` mirrors `root.find(...) is not None`; plain `String`
fields mirror `findtext(..., "")`. -/
structure Form4Doc where
  documentType : String
  periodOfReport : String
  dateOfEarliestTransaction : String
  issuer : Option F4Issuer
  reportingOwner : Option F4Owner
  nonDerivativeTable : Option (List F4Tx × List F4Hold)
  derivativeTable : Option (List F4DTx × List F4DHold)
  footnotes : Option (List F4Note)
  remarks : String
  ownerSignature : Option (String × String)
deriving DecidableEq, Repr

/-- Per-section state of `parse_form4_xml` (`parser_4.py` lines 124-132);
the `subsections` dict stays empty, and `tables` entries hold only
`headers` and `data`. -/
structure SectData4 where
  html_blocks : List String
  tables : List (List String × List (List String))
  chunks : List Chunk
  missing : Bool
deriving DecidableEq, Repr

/-- The Form 4 `sections` dict. -/
abbrev Sections4 := List (String × SectData4)

/-- Update one Form 4 section entry. -/
def updSec4 (m : Sections4) (lab : String) (f : SectData4 → SectData4) : Sections4 :=
  m.map (fun p => if p.1 == lab then (p.1, f p.2) else p)

/-- `add_block` (`parser_4.py` lines 134-137): a truthy text appends its
cleaned form and marks the section non-missing. -/
def addBlock4 (m : Sections4) (sec text : String) : Sections4 :=
  if text == "" then m
  else updSec4 m sec (fun s =>
    { s with html_blocks := s.html_blocks ++ [cleanText4S text], missing := false })

/-- `build_meta` of `parser_4.py` (lines 247-262). -/
def buildMeta4 (secName accession filingDate ticker : String)
    (linkMap : List (String × String)) (s e : Nat) : ChunkMeta :=
  { sectionLabel := secName
    start_token := s
    end_token := e
    token_count := e - s
    accession := accession
    filing_date := filingDate
    ticker := ticker
    source_url := ((linkMap.find? (fun p => p.1 == accession)).map (fun p => p.2)).getD ""
    tags := extractTags4 secName }

/-- The Table I headers (`parser_4.py` line 176). -/
def tableIHeaders : List String :=
  ["Security Title", "Trans. Shares", "Trans. Price", "Shares After", "Ownership"]

/-- The Table II headers (`parser_4.py` line 203). -/
def tableIIHeaders : List String :=
  ["Security Title", "Underlying Shares", "Ex. Price", "Expiration", "Trans. Shares", "Ownership"]

/-- `parse_form4_xml` (`parser_4.py` lines 112-296) restricted to its
sections output: fixed-path field extraction into the section scaffold,
then the chunk-emission pass. -/
def parseForm4Xml (doc : Form4Doc) (accession filingDate ticker : String)
    (linkMap : List (String × String)) : Sections4 :=
  let m0 : Sections4 := FORM4_CANON_SECTIONS.map (fun lab => (lab, ⟨[], [], [], true⟩))
  let m1 := addBlock4 m0 "Cover Page & Statement Date"
    ("Document Type: " ++ doc.documentType ++ "\n" ++
     "Period of Report: " ++ doc.periodOfReport ++ "\n" ++
     "Transaction Date (earliest): " ++ doc.dateOfEarliestTransaction)
  let m2 := match doc.issuer with
    | none => m1
    | some iss => addBlock4 m1 "Issuer Information"
        (markdownTable4 ["Field", "Value"]
          [["CIK", iss.issuerCik], ["Name", iss.issuerName],
           ["Trading Symbol", iss.issuerTradingSymbol]])
  let m3 := match doc.reportingOwner with
    | none => m2
    | some ow => addBlock4 m2 "Reporting Owner Information"
        (markdownTable4 ["Field", "Value"]
          [["Owner CIK", ow.rptOwnerCik], ["Owner Name", ow.rptOwnerName],
           ["Street 1", ow.street1], ["City", ow.city], ["State", ow.state],
           ["Zip", ow.zip], ["Is Officer", ow.isOfficer],
           ["Officer Title", ow.officerTitle]])
  let m4 := match doc.nonDerivativeTable with
    | none => m3
    | some (txs, holds) =>
      let rows := txs.map (fun tx =>
          [tx.securityTitle, tx.transactionShares, tx.transactionPrice,
           tx.sharesAfter, tx.ownership]) ++
        holds.map (fun h => [h.securityTitle, "", "", h.sharesAfter, h.ownership])
      if rows.isEmpty then m3
      else updSec4 (addBlock4 m3 "Table I – Non-Derivative Securities Acquired/Disposed/Owned"
          (markdownTable4 tableIHeaders rows))
        "Table I – Non-Derivative Securities Acquired/Disposed/Owned"
        (fun s => { s with tables := s.tables ++ [(tableIHeaders, rows)] })
  let m5 := match doc.derivativeTable with
    | none => m4
    | some (txs, holds) =>
      let rows := txs.map (fun tx =>
          [tx.securityTitle, tx.underlyingShares, tx.price, tx.expiration,
           tx.shares, tx.ownership]) ++
        holds.map (fun h =>
          [h.securityTitle, h.underlyingShares, "", h.expiration, "", h.ownership])
      if rows.isEmpty then m4
      else updSec4 (addBlock4 m4 "Table II – Derivative Securities Acquired/Disposed/Owned"
          (markdownTable4 tableIIHeaders rows))
        "Table II – Derivative Securities Acquired/Disposed/Owned"
        (fun s => { s with tables := s.tables ++ [(tableIIHeaders, rows)] })
  let m6 := match doc.footnotes with
    | none => m5
    | some fns => fns.foldl (fun acc fn =>
        addBlock4 acc "Footnotes/Remarks" ("[" ++ fn.id ++ "] " ++ cleanText4S fn.text)) m5
  let m7 := if doc.remarks == "" then m6
    else addBlock4 m6 "Footnotes/Remarks" ("Remarks: " ++ doc.remarks)
  let m8 := match doc.ownerSignature with
    | none => m7
    | some (nm, dt) => addBlock4 (addBlock4 m7 "Signature" nm) "Date Signed" dt
  m8.map (fun p =>
    if p.2.missing then p
    else
      let bm := buildMeta4 p.1 accession filingDate ticker linkMap
      (p.1, { p.2 with chunks := chunkSection bm (String.intercalate "\n" p.2.html_blocks) }))

/-- Decidable equality of parse outcomes. -/
instance {e a : Type} [DecidableEq e] [DecidableEq a] : DecidableEq (Except e a) := fun x y =>
  match x, y with
  | .ok v, .ok w => if h : v = w then isTrue (by rw [h]) else isFalse (by simp [h])
  | .error v, .error w => if h : v = w then isTrue (by rw [h]) else isFalse (by simp [h])
  | .ok _, .error _ => isFalse (by simp)
  | .error _, .ok _ => isFalse (by simp)

/-- The span `(start_token, end_token)` of every chunk the chunker emits
for one section, in order. -/
def chunkSpans (bm : Nat → Nat → ChunkMeta) (plain : String) : List (Nat × Nat) :=
  (chunkSection bm plain).map (fun c => (c.meta.start_token, c.meta.end_token))

/-- First 20-word text node of the Item 1A scenario. -/
def riskText1 : String :=
  "the company faces a number of risks related to global economic conditions supply chain disruption and competitive pressure in markets"

/-- Second 20-word text node of the Item 1A scenario. -/
def riskText2 : String :=
  "these conditions could materially harm operating results and cash flows and could cause actual outcomes to differ from expectations forward"

/-- The Item 1A scenario document: heading `ITEM 1A. RISK FACTORS`, two
20-word paragraphs, heading `ITEM 1B.`. -/
def c6Nodes : List HNode := [
  HNode.tag "span" "" "ITEM 1A. RISK FACTORS" ⟨[]⟩,
  HNode.tag "p" "" riskText1 ⟨[]⟩,
  HNode.tag "p" "" riskText2 ⟨[]⟩,
  HNode.tag "span" "" "ITEM 1B." ⟨[]⟩]

/-- The tags the pipeline actually attaches to Item 1A chunks: the
capitalised phrases of the canonical label, case-insensitively sorted. -/
def item1ATags : List String := ["A", "Factors", "I", "Item", "Part I", "Risk Factors"]

/-- A table element with non-empty text (`get_text` sees `hello`) but no
`tr` rows and no `th`, inside an open section: the input of the
`IndexError` scenario. -/
def badTableNodes : List HNode := [
  HNode.tag "span" "" "Item 1. Business" ⟨[]⟩,
  HNode.tag "table" "" "hello" ⟨[]⟩]

/-- A well-formed one-paragraph document (no catalog heading, so every
section stays missing; the parse still succeeds). -/
def goodDoc (s : String) : List HNode := [HNode.tag "p" "" s ⟨[]⟩]

/-- A batch of five inputs, the third corrupt (it raises `IndexError`). -/
def demoFiles : List (List HNode) := [
  goodDoc "alpha body", goodDoc "beta body", badTableNodes,
  goodDoc "gamma body", goodDoc "delta body"]

/-- The per-file parse the demo batch is run with. -/
def demoParse (nds : List HNode) : Except PErr Sections := parse10kFile nds "a" "" "t" []

/-- A small walker document whose only matched heading is Item 1
(`Signatures` in particular stays missing). -/
def wNodes : List HNode := [
  HNode.tag "span" "" "Item 1. Business" ⟨[]⟩,
  HNode.tag "p" "" "hello world" ⟨[]⟩]

/-- The table of the C2 counterexample: header-cell markup sits in the
second row, not the first. -/
def thSecondRowTable : HTable :=
  ⟨[[⟨"a", false⟩, ⟨"b", false⟩], [⟨"h1", true⟩, ⟨"h2", true⟩]]⟩

/-- The Form 4 scenario document: an issuer block with CIK 0000320193 and
one non-derivative transaction; everything else absent. -/
def f4Example : Form4Doc := {
  documentType := "4"
  periodOfReport := "2024-02-01"
  dateOfEarliestTransaction := "2024-02-01"
  issuer := some ⟨"0000320193", "Apple Inc.", "AAPL"⟩
  reportingOwner := none
  nonDerivativeTable := some ([⟨"Common Stock", "100", "150.00", "1000", "D"⟩], [])
  derivativeTable := none
  footnotes := none
  remarks := ""
  ownerSignature := none }

/-- The section map the Form 4 scenario parses to. -/
def f4Parsed : Sections4 := parseForm4Xml f4Example "acc4" "20240201" "AAPL" []

/-- A string is collapsed with respect to `p`: every `p`-character in it is
a plain space, and no two adjacent characters both satisfy `p`.  This is
the invariant `re.sub(r"[ \t\r\f\v]+", " ", ·)` establishes. -/
def NoRun (p : Char → Bool) (l : List Char) : Prop :=
  (∀ c ∈ l, p c = true → c = ' ') ∧
  l.Chain' (fun a b => ¬(p a = true ∧ p b = true))

/-!  Chunker lemmas: span bounds, the overlap chain and the final span of
the `while start < tokens` loop. -/

theorem buildMeta_start (n a f t : String) (lm : List (String × String)) (s e : Nat) :
    (buildMeta n a f t lm s e).start_token = s := rfl

theorem buildMeta_end (n a f t : String) (lm : List (String × String)) (s e : Nat) :
    (buildMeta n a f t lm s e).end_token = e := rfl

theorem chunkLoop_head (words : List (List Char)) (tokens : Nat)
    (bm : Nat → Nat → ChunkMeta) (start : Nat) (h : start < tokens) :
    ∃ rest, chunkLoop words tokens bm start =
      { text := String.mk (joinSp ((words.drop start).take (min (start + TOKEN_LIMIT) tokens - start)))
        meta := bm start (min (start + TOKEN_LIMIT) tokens) } :: rest := by
  rw [chunkLoop]
  by_cases h2 : min (start + TOKEN_LIMIT) tokens = tokens
  · exact ⟨[], by simp [dif_pos h, h2]⟩
  · exact ⟨chunkLoop words tokens bm (min (start + TOKEN_LIMIT) tokens - TOKEN_OVERLAP),
      by simp [dif_pos h, h2]⟩

theorem chunkLoop_mem (words : List (List Char)) (tokens : Nat)
    (bm : Nat → Nat → ChunkMeta) :
    ∀ n start, tokens - start = n →
      ∀ ck ∈ chunkLoop words tokens bm start,
        ∃ s e, ck.meta = bm s e ∧ s < e ∧ e ≤ s + TOKEN_LIMIT ∧ e ≤ tokens := by
  have hL : TOKEN_LIMIT = 512 := rfl
  have hO : TOKEN_OVERLAP = 61 := rfl
  intro n
  induction n using Nat.strong_induction_on with
  | _ n ih =>
    intro start hst ck hck
    rw [chunkLoop] at hck
    split at hck
    case isFalse => exact absurd hck (List.not_mem_nil ck)
    case isTrue h =>
      dsimp only at hck
      split at hck
      case isTrue h2 =>
        simp only [List.mem_singleton] at hck
        exact ⟨start, min (start + TOKEN_LIMIT) tokens, by rw [hck], by omega, by omega, by omega⟩
      case isFalse h2 =>
        simp only [List.mem_cons] at hck
        rcases hck with hck | hck
        · exact ⟨start, min (start + TOKEN_LIMIT) tokens, by rw [hck], by omega, by omega, by omega⟩
        · exact ih (tokens - (min (start + TOKEN_LIMIT) tokens - TOKEN_OVERLAP))
            (by omega) (min (start + TOKEN_LIMIT) tokens - TOKEN_OVERLAP) rfl ck hck

theorem chunkLoop_chain (words : List (List Char)) (tokens : Nat)
    (bm : Nat → Nat → ChunkMeta)
    (hbm : ∀ s e, (bm s e).start_token = s ∧ (bm s e).end_token = e) :
    ∀ n start, tokens - start = n →
      List.Chain' (fun p q => p.2 < tokens ∧ q.1 = p.2 - TOKEN_OVERLAP)
        ((chunkLoop words tokens bm start).map
          (fun c => (c.meta.start_token, c.meta.end_token))) := by
  have hL : TOKEN_LIMIT = 512 := rfl
  have hO : TOKEN_OVERLAP = 61 := rfl
  intro n
  induction n using Nat.strong_induction_on with
  | _ n ih =>
    intro start hst
    rw [chunkLoop]
    split
    case isFalse => simp
    case isTrue h =>
      dsimp only
      split
      case isTrue h2 => simp
      case isFalse h2 =>
        simp only [List.map_cons]
        rw [List.chain'_cons']
        refine ⟨?_, ih (tokens - (min (start + TOKEN_LIMIT) tokens - TOKEN_OVERLAP))
          (by omega) _ rfl⟩
        intro y hy
        obtain ⟨rest, hrest⟩ := chunkLoop_head words tokens bm
          (min (start + TOKEN_LIMIT) tokens - TOKEN_OVERLAP) (by omega)
        rw [hrest] at hy
        simp only [List.map_cons, List.head?_cons, Option.mem_def, Option.some.injEq] at hy
        subst hy
        refine ⟨?_, ?_⟩
        · simp only [(hbm _ _).2]
          omega
        · simp only [(hbm _ _).1, (hbm _ _).2]

theorem chunkLoop_last (words : List (List Char)) (tokens : Nat)
    (bm : Nat → Nat → ChunkMeta)
    (hbm : ∀ s e, (bm s e).start_token = s ∧ (bm s e).end_token = e) :
    ∀ n start, tokens - start = n → start < tokens →
      ∃ s, ((chunkLoop words tokens bm start).map
          (fun c => (c.meta.start_token, c.meta.end_token))).getLast? = some (s, tokens) := by
  have hL : TOKEN_LIMIT = 512 := rfl
  have hO : TOKEN_OVERLAP = 61 := rfl
  intro n
  induction n using Nat.strong_induction_on with
  | _ n ih =>
    intro start hst h
    rw [chunkLoop]
    rw [dif_pos h]
    dsimp only
    split
    case isTrue h2 =>
      refine ⟨start, ?_⟩
      simp only [List.map_cons, List.map_nil, List.getLast?_singleton, Option.some.injEq,
        Prod.mk.injEq, (hbm _ _).1, (hbm _ _).2]
      exact ⟨trivial, by omega⟩
    case isFalse h2 =>
      have hlt : min (start + TOKEN_LIMIT) tokens - TOKEN_OVERLAP < tokens := by omega
      obtain ⟨s, hs⟩ := ih (tokens - (min (start + TOKEN_LIMIT) tokens - TOKEN_OVERLAP))
        (by omega) _ rfl hlt
      refine ⟨s, ?_⟩
      obtain ⟨rest, hrest⟩ := chunkLoop_head words tokens bm
        (min (start + TOKEN_LIMIT) tokens - TOKEN_OVERLAP) hlt
      rw [hrest] at hs ⊢
      simpa [List.getLast?_cons_cons] using hs

/-- C1: for every section text, if its whitespace-token count `T` is at
most 512 the chunker emits exactly one chunk spanning `[0, T)`; if
`T > 512`, every emitted chunk spans at most 512 tokens, every consecutive
pair of chunks satisfies `start_{i+1} = end_i - 61` (with `end_i < T`),
and the final chunk ends at `T`. -/
theorem c1_chunker_spans (secName accession filingDate ticker : String)
    (linkMap : List (String × String)) (plain : String) :
    (tokenCount plain ≤ TOKEN_LIMIT →
      chunkSpans (buildMeta secName accession filingDate ticker linkMap) plain =
        [(0, tokenCount plain)]) ∧
    (TOKEN_LIMIT < tokenCount plain →
      (∀ p ∈ chunkSpans (buildMeta secName accession filingDate ticker linkMap) plain,
          p.2 - p.1 ≤ TOKEN_LIMIT) ∧
      List.Chain' (fun p q => p.2 < tokenCount plain ∧ q.1 = p.2 - TOKEN_OVERLAP)
        (chunkSpans (buildMeta secName accession filingDate ticker linkMap) plain) ∧
      (∃ s, (chunkSpans (buildMeta secName accession filingDate ticker linkMap) plain).getLast? =
        some (s, tokenCount plain))) := by
  have hbm : ∀ s e, ((buildMeta secName accession filingDate ticker linkMap) s e).start_token = s ∧
      ((buildMeta secName accession filingDate ticker linkMap) s e).end_token = e :=
    fun s e => ⟨rfl, rfl⟩
  constructor
  · intro h
    simp [chunkSpans, chunkSection, h, buildMeta]
  · intro h
    have hns : chunkSpans (buildMeta secName accession filingDate ticker linkMap) plain =
        (chunkLoop (splitWS plain.data) (tokenCount plain)
          (buildMeta secName accession filingDate ticker linkMap) 0).map
          (fun c => (c.meta.start_token, c.meta.end_token)) := by
      simp only [chunkSpans, chunkSection]
      rw [if_neg (by omega)]
    refine ⟨?_, ?_, ?_⟩
    · intro p hp
      rw [hns] at hp
      obtain ⟨ck, hck, hpe⟩ := List.mem_map.mp hp
      obtain ⟨s, e, hmeta, hse, hle, _⟩ :=
        chunkLoop_mem (splitWS plain.data) (tokenCount plain)
          (buildMeta secName accession filingDate ticker linkMap)
          (tokenCount plain - 0) 0 rfl ck hck
      rw [← hpe, hmeta, (hbm s e).1, (hbm s e).2]
      omega
    · rw [hns]
      exact chunkLoop_chain _ _ _ hbm (tokenCount plain - 0) 0 rfl
    · rw [hns]
      exact chunkLoop_last _ _ _ hbm (tokenCount plain - 0) 0 rfl (by omega)

/-- Witness for C1: a three-token section text takes the `T <= 512` branch
and yields the single chunk `[0, 3)`. -/
theorem c1_chunker_spans_witness :
    tokenCount "alpha beta gamma" ≤ TOKEN_LIMIT ∧
    chunkSpans (buildMeta "Cover Page" "acc" "2024" "AAPL" []) "alpha beta gamma" = [(0, 3)] := by
  refine ⟨by decide, ?_⟩
  have h := (c1_chunker_spans "Cover Page" "acc" "2024" "AAPL" [] "alpha beta gamma").1 (by decide)
  rw [show tokenCount "alpha beta gamma" = 3 from by decide] at h
  exact h

/-- C4: whenever the item-number regex finds a token in the cleaned text
and its id resolves in `ITEM_MAP`, `match_section` returns that resolved
canonical label — the words around the item number (including a conflicting
canonical phrase) are never consulted. -/
theorem c4_item_id_precedence (text : String) (g : List Char) (lab : String)
    (h1 : findItemId (cleanText text.data) = some g)
    (h2 : itemLookup ("ITEM " ++ upperStr g) = some lab) :
    matchSection text = some lab := by
  simp only [matchSection]
  rw [h1]
  exact h2

/-- Witness for C4: `"Item 7. Signatures"` contains the conflicting
canonical phrase `Signatures`, which the fallback would match, yet the
item id resolves first and yields the MD&A label. -/
theorem c4_item_id_precedence_witness :
    findItemId (cleanText "Item 7. Signatures".data) = some ['7'] ∧
    itemLookup ("ITEM " ++ upperStr ['7']) = some mdaLabel ∧
    phraseFallback (lowerDash (cleanText "Item 7. Signatures".data)) = some "Signatures" ∧
    matchSection "Item 7. Signatures" = some mdaLabel :=
  ⟨by decide, by decide, by decide,
    c4_item_id_precedence "Item 7. Signatures" ['7'] mdaLabel (by decide) (by decide)⟩

/-- C9: whenever the item-number regex finds a token in the cleaned text
but its id is absent from `ITEM_MAP`, `match_section` returns `none`
immediately — the phrase-based fallback is never attempted. -/
theorem c9_unresolved_item_id_no_fallback (text : String) (g : List Char)
    (h1 : findItemId (cleanText text.data) = some g)
    (h2 : itemLookup ("ITEM " ++ upperStr g) = none) :
    matchSection text = none := by
  simp only [matchSection]
  rw [h1]
  exact h2

/-- Witness for C9: `"Item 99. Signatures"` has an unresolvable item id,
and `match_section` returns `none` even though the fallback would have
matched the canonical phrase `Signatures`. -/
theorem c9_unresolved_item_id_no_fallback_witness :
    findItemId (cleanText "Item 99. Signatures".data) = some ['9', '9'] ∧
    itemLookup ("ITEM " ++ upperStr ['9', '9']) = none ∧
    phraseFallback (lowerDash (cleanText "Item 99. Signatures".data)) = some "Signatures" ∧
    matchSection "Item 99. Signatures" = none :=
  ⟨by decide, by decide, by decide,
    c9_unresolved_item_id_no_fallback "Item 99. Signatures" ['9', '9'] (by decide) (by decide)⟩

theorem foldl_rowLine (rows : List (List String)) (init : String) :
    rows.foldl (fun acc r => acc ++ rowLine r) init = init ++ mdLinesCat rows := by
  induction rows generalizing init with
  | nil =>
    apply String.ext
    simp [mdLinesCat]
  | cons r rs ih =>
    simp only [List.foldl_cons, ih, mdLinesCat, List.foldr_cons]
    apply String.ext
    simp [mdLinesCat]

theorem mdAssemble_eq (hdrs : List String) (data : List (List String)) :
    mdAssemble hdrs data =
      pyStripS (rowLine hdrs ++ rowLine (hdrs.map (fun _ => "---")) ++ mdLinesCat (data.drop 1)) := by
  simp only [mdAssemble, foldl_rowLine]

/-- C2 amended: `headers` is the FIRST captured row whenever header-cell
markup occurs anywhere in the table (not necessarily the row containing
it), else empty; `data` holds every row; the markdown rendering is one
header row (blank cells matching the first row's width when `headers` is
empty), one separator row and one row per data row EXCLUDING the first —
the first captured row never appears among the rendered data rows. -/
theorem c2_table_capture_amended (t : HTable) (pre post : String) :
    (tableToDict t pre post).headers =
      (if findTh t then (t.rows.map (fun r => r.map (fun c => cleanTextS c.txt))).headD []
       else []) ∧
    (tableToDict t pre post).data = t.rows.map (fun r => r.map (fun c => cleanTextS c.txt)) ∧
    (∀ d : TableDict, ∀ r0 rest, d.data = r0 :: rest →
      dictToMarkdown d = some (pyStripS
        (rowLine (if d.headers.isEmpty then r0.map (fun _ => "") else d.headers) ++
         rowLine ((if d.headers.isEmpty then r0.map (fun _ => "") else d.headers).map
           (fun _ => "---")) ++
         mdLinesCat rest))) := by
  refine ⟨rfl, rfl, ?_⟩
  intro d r0 rest hdata
  obtain ⟨hs, ds, pc, qc⟩ := d
  simp only at hdata
  subst hdata
  cases hs with
  | nil => simp [dictToMarkdown, mdAssemble_eq]
  | cons h hs' => simp [dictToMarkdown, mdAssemble_eq]

/-- Witness for C2 (amended): the concrete two-row table with header
markup in its second row, evaluated through the amended statement. -/
theorem c2_table_capture_amended_witness :
    (tableToDict thSecondRowTable "" "").headers = ["a", "b"] ∧
    dictToMarkdown ⟨["a", "b"], [["a", "b"], ["h1", "h2"]], "", ""⟩ =
      some (pyStripS (rowLine ["a", "b"] ++ rowLine ["---", "---"] ++ mdLinesCat [["h1", "h2"]])) := by
  refine ⟨?_, ?_⟩
  · have h := (c2_table_capture_amended thSecondRowTable "" "").1
    rw [h]
    decide
  · exact (c2_table_capture_amended thSecondRowTable "" "").2.2
      ⟨["a", "b"], [["a", "b"], ["h1", "h2"]], "", ""⟩ ["a", "b"] [["h1", "h2"]] rfl

/-- Counterexample for C2: with header markup only in the second row the
captured `headers` is still the first row, and with empty `headers` the
rendered markdown drops the first data row (`|x|y|` does not appear). -/
theorem c2_table_capture_counterexample :
    (tableToDict thSecondRowTable "" "").headers = ["a", "b"] ∧
    ((thSecondRowTable.rows.get? 0).map (fun r => r.any (fun c => c.isTh))) = some false ∧
    ((thSecondRowTable.rows.get? 1).map (fun r => r.any (fun c => c.isTh))) = some true ∧
    (tableToDict thSecondRowTable "" "").headers ≠ ["h1", "h2"] ∧
    dictToMarkdown ⟨[], [["x", "y"], ["p", "q"]], "", ""⟩ = some "|||\n|---|---|\n|p|q|" ∧
    containsSeq "x".data "|||\n|---|---|\n|p|q|".data = false := by
  decide

/-- Counterexample for C6: on the Item 1A scenario document the section is
found, one 40-token chunk is emitted, but its tags are the capitalised
phrases of the canonical label in their original casing — the upper-cased
`"RISK"`, `"FACTORS"` and `"RISK FACTORS"` the claim expects are absent. -/
theorem c6_risk_factors_counterexample :
    (match parse10kFile c6Nodes "acc1" "20240101" "AAPL" [] with
     | .ok m => (m.find? (fun p => p.1 == "Part I – Item 1A. Risk Factors")).map
         (fun p => (p.2.missing, p.2.chunks.map (fun c => (c.meta.token_count, c.meta.tags))))
     | .error _ => none) = some (false, [(40, item1ATags)]) ∧
    "RISK" ∉ item1ATags ∧ "FACTORS" ∉ item1ATags ∧ "RISK FACTORS" ∉ item1ATags := by
  decide

/-- C6 amended: the Item 1A scenario yields `missing = false` and exactly
one chunk with `token_count = 40`, whose tags are
`["A", "Factors", "I", "Item", "Part I", "Risk Factors"]` — in particular
they include `"Factors"` and `"Risk Factors"` (original casing, plus the
label's other capitalised phrases), not the upper-cased heading words. -/
theorem c6_risk_factors_scenario :
    (match parse10kFile c6Nodes "acc1" "20240101" "AAPL" [] with
     | .ok m => (m.find? (fun p => p.1 == "Part I – Item 1A. Risk Factors")).map
         (fun p => (p.2.missing, p.2.chunks.map (fun c => (c.meta.token_count, c.meta.tags))))
     | .error _ => none) = some (false, [(40, item1ATags)]) ∧
    "Factors" ∈ item1ATags ∧ "Risk Factors" ∈ item1ATags := by
  decide

/-- C7 amended: the Form 4 scenario produces a non-missing Issuer
Information section whose single chunk's text contains the markdown row
`|CIK|0000320193|`, and a non-missing Table I section whose single chunk
contains the transaction's markdown row. -/
theorem c7_form4_scenario :
    ((f4Parsed.find? (fun p => p.1 == "Issuer Information")).map
      (fun p => (p.2.missing,
        p.2.chunks.map (fun c => containsSeq "|CIK|0000320193|".data c.text.data)))) =
      some (false, [true]) ∧
    ((f4Parsed.find? (fun p =>
        p.1 == "Table I – Non-Derivative Securities Acquired/Disposed/Owned")).map
      (fun p => (p.2.missing,
        p.2.chunks.map (fun c => containsSeq "|Common Stock|100|150.00|1000|D|".data c.text.data)))) =
      some (false, [true]) := by
  decide

/-- Counterexample for C7: in the same scenario the Table I section's
single chunk does NOT contain the issuer CIK anywhere — the CIK's markdown
row lives in the Issuer Information chunk instead. -/
theorem c7_form4_counterexample :
    ((f4Parsed.find? (fun p =>
        p.1 == "Table I – Non-Derivative Securities Acquired/Disposed/Owned")).map
      (fun p => p.2.chunks.map (fun c => containsSeq "0000320193".data c.text.data))) =
      some [false] ∧
    ((f4Parsed.find? (fun p => p.1 == "Issuer Information")).map
      (fun p => p.2.chunks.map (fun c => containsSeq "|CIK|0000320193|".data c.text.data))) =
      some [true] := by
  decide

theorem runBatch_go {α β : Type} (parse : α → Except PErr β) :
    ∀ (files : List α) (a b : Nat) (arts : List (α × β)),
      files.foldl (fun acc fp =>
        match parse fp with
        | .ok d => (acc.1 + 1, acc.2.1, acc.2.2 ++ [(fp, d)])
        | .error _ => (acc.1, acc.2.1 + 1, acc.2.2)) (a, b, arts) =
      (a + (files.filter (fun f => (parse f).toOption.isSome)).length,
       b + (files.filter (fun f => !(parse f).toOption.isSome)).length,
       arts ++ files.filterMap (fun f => ((parse f).toOption).map (fun d => (f, d)))) := by
  intro files
  induction files with
  | nil => intro a b arts; simp
  | cons f fs ih =>
    intro a b arts
    cases hp : parse f with
    | ok d =>
      simp only [List.foldl_cons, hp, ih, List.filter_cons, List.filterMap_cons,
        Except.toOption, Option.isSome_some, Bool.not_true, if_true, if_false,
        List.length_cons, Option.map_some]
      refine Prod.ext ?_ (Prod.ext ?_ ?_) <;> simp <;> omega
    | error e =>
      simp only [List.foldl_cons, hp, ih, List.filter_cons, List.filterMap_cons,
        Except.toOption, Option.isSome_none, Bool.not_false, if_true, if_false,
        List.length_cons, Option.map_none]
      refine Prod.ext ?_ (Prod.ext ?_ ?_) <;> simp <;> omega

/-- C8: the orchestrator catches each per-file failure, counts it and
continues: over any batch, `success` is the number of files whose parse
succeeds, `fail` the number that raise, and exactly the successful files'
artifacts are written, in order; concretely, the five-file demo batch with
one corrupt file ends with `success = 4`, `fail = 1` and the four good
files' artifacts written. -/
theorem c8_failure_isolation :
    (∀ (α β : Type) (parse : α → Except PErr β) (files : List α),
      (runBatch parse files).1 =
        (files.filter (fun f => (parse f).toOption.isSome)).length ∧
      (runBatch parse files).2.1 =
        (files.filter (fun f => !(parse f).toOption.isSome)).length ∧
      (runBatch parse files).2.2 =
        files.filterMap (fun f => ((parse f).toOption).map (fun d => (f, d)))) ∧
    (runBatch demoParse demoFiles).1 = 4 ∧
    (runBatch demoParse demoFiles).2.1 = 1 ∧
    ((runBatch demoParse demoFiles).2.2.map (fun p => p.1)) =
      [goodDoc "alpha body", goodDoc "beta body", goodDoc "gamma body", goodDoc "delta body"] := by
  have hgen : ∀ (α β : Type) (parse : α → Except PErr β) (files : List α),
      runBatch parse files =
        ((files.filter (fun f => (parse f).toOption.isSome)).length,
         (files.filter (fun f => !(parse f).toOption.isSome)).length,
         files.filterMap (fun f => ((parse f).toOption).map (fun d => (f, d)))) := by
    intro α β parse files
    rw [runBatch, runBatch_go]
    simp
  refine ⟨fun α β parse files => by rw [hgen]; exact ⟨rfl, rfl, rfl⟩, ?_, ?_, ?_⟩ <;>
    · rw [hgen]
      decide

/-- C10: a table node with non-empty text but no `tr` rows inside an open
section is captured with empty `headers` and `data`; the renderer's
`tbl["data"][0]` then raises `IndexError`, the per-file parse aborts with
that error instead of producing a document, and the orchestrator counts
the file as failed with no artifact written. -/
theorem c10_empty_table_index_error :
    tableToDict ⟨[]⟩ "Item 1. Business" "" =
      { headers := [], data := [], pre_context := "Item 1. Business", post_context := "" } ∧
    dictToMarkdown (tableToDict ⟨[]⟩ "Item 1. Business" "") = none ∧
    parse10kFile badTableNodes "a" "" "t" [] = Except.error PErr.indexError ∧
    runBatch demoParse [badTableNodes] = (0, 1, []) := by
  decide

/-!  Walker invariants: the walk phase never touches `chunks`, keys are
stable, and the chunk phase labels every chunk with its own section. -/

theorem updSec_chunks_pres {m : Sections} {lab : String} {f : SectData → SectData}
    (hf : ∀ s, (f s).chunks = s.chunks)
    (hinv : ∀ p ∈ m, p.2.chunks = []) :
    ∀ p ∈ updSec m lab f, p.2.chunks = [] := by
  intro p hp
  obtain ⟨q, hq, hpq⟩ := List.mem_map.mp hp
  by_cases h : q.1 == lab
  · rw [if_pos h] at hpq
    rw [← hpq]
    simp only [hf]
    exact hinv q hq
  · rw [if_neg h] at hpq
    rw [← hpq]
    exact hinv q hq

theorem walkStep_chunks_pres {nodes : List HNode} {i : Nat} {node : HNode}
    {st st2 : WalkSt} (h : walkStep nodes i node st = Except.ok st2)
    (hinv : ∀ p ∈ st.secs, p.2.chunks = []) :
    ∀ p ∈ st2.secs, p.2.chunks = [] := by
  cases node with
  | str t =>
    simp only [walkStep, Except.ok.injEq] at h
    rw [← h]
    exact hinv
  | tag name style rawText tbl =>
    simp only [walkStep] at h
    split at h
    · simp only [Except.ok.injEq] at h
      rw [← h]
      exact hinv
    · split at h
      · simp only [Except.ok.injEq] at h
        rw [← h]
        dsimp only
        exact updSec_chunks_pres (fun s => rfl) hinv
      · split at h
        · simp only [Except.ok.injEq] at h
          rw [← h]
          exact hinv
        · split at h
          · simp only [Except.ok.injEq] at h
            rw [← h]
            exact hinv
          · split at h
            · split at h
              · exact absurd h (by simp)
              · simp only [Except.ok.injEq] at h
                rw [← h]
                dsimp only
                exact updSec_chunks_pres (fun s => rfl) hinv
            · split at h
              · simp only [Except.ok.injEq] at h
                rw [← h]
                dsimp only
                exact updSec_chunks_pres (fun s => rfl) hinv
              · simp only [Except.ok.injEq] at h
                rw [← h]
                dsimp only
                exact updSec_chunks_pres (fun s => rfl) hinv

theorem walkAux_chunks_pres {nodes : List HNode} :
    ∀ {en : List (Nat × HNode)} {st st2 : WalkSt},
      walkAux nodes en st = Except.ok st2 →
      (∀ p ∈ st.secs, p.2.chunks = []) →
      ∀ p ∈ st2.secs, p.2.chunks = [] := by
  intro en
  induction en with
  | nil =>
    intro st st2 h hinv
    simp only [walkAux, Except.ok.injEq] at h
    rw [← h]
    exact hinv
  | cons hd tl ih =>
    intro st st2 h hinv
    obtain ⟨i, n⟩ := hd
    simp only [walkAux] at h
    split at h
    case h_1 st3 hstep => exact ih h (walkStep_chunks_pres hstep hinv)
    case h_2 => exact absurd h (by simp)

theorem updSec_fst (m : Sections) (lab : String) (f : SectData → SectData) :
    (updSec m lab f).map Prod.fst = m.map Prod.fst := by
  simp only [updSec, List.map_map]
  apply List.map_congr_left
  intro p _
  by_cases h : p.1 = lab <;> simp [h]

theorem walkStep_fst {nodes : List HNode} {i : Nat} {node : HNode}
    {st st2 : WalkSt} (h : walkStep nodes i node st = Except.ok st2) :
    st2.secs.map Prod.fst = st.secs.map Prod.fst := by
  cases node with
  | str t =>
    simp only [walkStep, Except.ok.injEq] at h
    rw [← h]
  | tag name style rawText tbl =>
    simp only [walkStep] at h
    split at h
    · simp only [Except.ok.injEq] at h
      rw [← h]
    · split at h
      · simp only [Except.ok.injEq] at h
        rw [← h]
        dsimp only
        exact updSec_fst _ _ _
      · split at h
        · simp only [Except.ok.injEq] at h
          rw [← h]
        · split at h
          · simp only [Except.ok.injEq] at h
            rw [← h]
          · split at h
            · split at h
              · exact absurd h (by simp)
              · simp only [Except.ok.injEq] at h
                rw [← h]
                dsimp only
                exact updSec_fst _ _ _
            · split at h
              · simp only [Except.ok.injEq] at h
                rw [← h]
                dsimp only
                exact updSec_fst _ _ _
              · simp only [Except.ok.injEq] at h
                rw [← h]
                dsimp only
                exact updSec_fst _ _ _

theorem walkAux_fst {nodes : List HNode} :
    ∀ {en : List (Nat × HNode)} {st st2 : WalkSt},
      walkAux nodes en st = Except.ok st2 →
      st2.secs.map Prod.fst = st.secs.map Prod.fst := by
  intro en
  induction en with
  | nil =>
    intro st st2 h
    simp only [walkAux, Except.ok.injEq] at h
    rw [← h]
  | cons hd tl ih =>
    intro st st2 h
    obtain ⟨i, n⟩ := hd
    simp only [walkAux] at h
    split at h
    case h_1 st3 hstep => rw [ih h, walkStep_fst hstep]
    case h_2 => exact absurd h (by simp)

theorem chunkSection_label (lab a f t : String) (lm : List (String × String))
    (plain : String) :
    ∀ ck ∈ chunkSection (buildMeta lab a f t lm) plain, ck.meta.sectionLabel = lab := by
  intro ck hck
  simp only [chunkSection] at hck
  split at hck
  · simp only [List.mem_singleton] at hck
    rw [hck]
    rfl
  · obtain ⟨s, e, hmeta, -, -, -⟩ :=
      chunkLoop_mem (splitWS plain.data) (tokenCount plain) (buildMeta lab a f t lm)
        (tokenCount plain - 0) 0 rfl ck hck
    rw [hmeta]
    rfl

theorem chunkPhase_fst (a f t : String) (lm : List (String × String)) (m : Sections) :
    (chunkPhase a f t lm m).map Prod.fst = m.map Prod.fst := by
  simp only [chunkPhase, List.map_map]
  apply List.map_congr_left
  intro p _
  by_cases h : p.2.missing <;> simp [h]

theorem keys_nodup_inj {m : Sections} (h : (m.map Prod.fst).Nodup) :
    ∀ p ∈ m, ∀ q ∈ m, p.1 = q.1 → p = q := by
  induction m with
  | nil => intro p hp; exact absurd hp (List.not_mem_nil p)
  | cons a t ih =>
    simp only [List.map_cons, List.nodup_cons] at h
    intro p hp q hq hpq
    rcases List.mem_cons.mp hp with rfl | hp' <;>
      rcases List.mem_cons.mp hq with rfl | hq'
    · rfl
    · exact absurd (hpq ▸ List.mem_map_of_mem Prod.fst hq') h.1
    · exact absurd (hpq ▸ List.mem_map_of_mem Prod.fst hp') h.1
    · exact ih h.2 p hp' q hq' hpq

/-- C5: in any successfully parsed document, a section still marked
missing has an empty chunk list, and its label appears in no emitted
chunk's section field (every chunk carries exactly its own section's
label, and labels are unique). -/
theorem c5_missing_sections_silent (nodes : List HNode)
    (accession filingDate ticker : String) (linkMap : List (String × String))
    (m : Sections)
    (hp : parse10kFile nodes accession filingDate ticker linkMap = Except.ok m) :
    ∀ p ∈ m, p.2.missing = true →
      p.2.chunks = [] ∧ ∀ q ∈ m, ∀ ck ∈ q.2.chunks, ck.meta.sectionLabel ≠ p.1 := by
  simp only [parse10kFile] at hp
  split at hp
  case h_1 => exact absurd hp (by simp)
  case h_2 st hw =>
    simp only [Except.ok.injEq] at hp
    have hchunks : ∀ p ∈ st.secs, p.2.chunks = [] :=
      walkAux_chunks_pres hw (by
        intro p hp'
        obtain ⟨lab, -, hlab⟩ := List.mem_map.mp hp'
        rw [← hlab]
        rfl)
    have hfst : m.map Prod.fst = RAW_CANON_SECTIONS := by
      rw [← hp, chunkPhase_fst, walkAux_fst hw]
      simp only [List.map_map]
      have hid : (Prod.fst ∘ fun lab : String => (lab, emptySect)) = id := rfl
      rw [hid, List.map_id]
    have hnodup : (m.map Prod.fst).Nodup := by
      rw [hfst]
      decide
    have hlabel : ∀ q ∈ m, ∀ ck ∈ q.2.chunks, ck.meta.sectionLabel = q.1 := by
      intro q hq ck hck
      rw [← hp] at hq
      simp only [chunkPhase] at hq
      obtain ⟨q0, hq0, hqq⟩ := List.mem_map.mp hq
      by_cases hmiss : q0.2.missing
      · rw [if_pos hmiss] at hqq
        rw [← hqq] at hck
        rw [hchunks q0 hq0] at hck
        exact absurd hck (List.not_mem_nil ck)
      · rw [if_neg hmiss] at hqq
        rw [← hqq] at hck ⊢
        exact chunkSection_label _ _ _ _ _ _ ck hck
    intro p hpm hmiss
    have hpempty : p.2.chunks = [] := by
      rw [← hp] at hpm
      simp only [chunkPhase] at hpm
      obtain ⟨p0, hp0, hpp⟩ := List.mem_map.mp hpm
      by_cases hm0 : p0.2.missing
      · rw [if_pos hm0] at hpp
        rw [← hpp]
        exact hchunks p0 hp0
      · rw [if_neg hm0] at hpp
        rw [← hpp] at hmiss
        simp at hmiss
        exact absurd hmiss hm0
    refine ⟨hpempty, ?_⟩
    intro q hq ck hck heq
    have hl := hlabel q hq ck hck
    have hpq : q.1 = p.1 := by rw [← hl, heq]
    have hqp := keys_nodup_inj hnodup q hq p hpm hpq
    rw [hqp, hpempty] at hck
    exact absurd hck (List.not_mem_nil ck)

/-- Witness for C5: in the parse of a document whose only matched heading
is Item 1, the `Signatures` section is missing, has no chunks, and its
label occurs in no chunk's section field. -/
theorem c5_missing_sections_silent_witness :
    ∃ m, parse10kFile wNodes "acc" "" "AAPL" [] = Except.ok m ∧
      ∃ p, m.find? (fun q => q.1 == "Signatures") = some p ∧ p.2.missing = true ∧
        p.2.chunks = [] ∧ ∀ q ∈ m, ∀ ck ∈ q.2.chunks, ck.meta.sectionLabel ≠ p.1 := by
  have h1 : (match parse10kFile wNodes "acc" "" "AAPL" [] with
      | .ok mm => (mm.find? (fun q => q.1 == "Signatures")).map (fun p => p.2.missing)
      | .error _ => none) = some true := by decide
  cases hp : parse10kFile wNodes "acc" "" "AAPL" [] with
  | error e => rw [hp] at h1; exact absurd h1 (by simp)
  | ok m =>
    rw [hp] at h1
    dsimp only at h1
    refine ⟨m, rfl, ?_⟩
    cases hf : m.find? (fun q => q.1 == "Signatures") with
    | none => rw [hf] at h1; simp at h1
    | some p =>
      rw [hf] at h1
      simp only [Option.map_some', Option.some.injEq] at h1
      have hmem : p ∈ m := List.mem_of_find?_eq_some hf
      have hc := c5_missing_sections_silent wNodes "acc" "" "AAPL" [] m hp p hmem h1
      exact ⟨p, rfl, h1, hc.1, hc.2⟩

/-!  Normaliser lemmas for C3: membership tracking, the collapsed-string
invariant `NoRun`, and idempotence of stripping. -/

theorem collapseBy_mem (p : Char → Bool) :
    ∀ z, ∀ c ∈ collapseBy p z, c ∈ z ∨ c = ' ' := by
  intro z
  induction z with
  | nil => intro c hc; exact absurd hc (List.not_mem_nil c)
  | cons c1 rest ih =>
    cases rest with
    | nil =>
      intro c hc
      by_cases h : p c1 = true <;> simp [collapseBy, h] at hc <;> simp [hc]
    | cons c2 r2 =>
      intro c hc
      by_cases h : (p c1 && p c2) = true
      · rw [show collapseBy p (c1 :: c2 :: r2) = collapseBy p (c2 :: r2) by
          simp [collapseBy, h]] at hc
        rcases ih c hc with h' | h'
        · exact Or.inl (List.mem_cons_of_mem c1 h')
        · exact Or.inr h'
      · rw [show collapseBy p (c1 :: c2 :: r2) =
            (if p c1 then ' ' else c1) :: collapseBy p (c2 :: r2) by
          simp [collapseBy, h]] at hc
        rcases List.mem_cons.mp hc with rfl | hc'
        · by_cases h1 : p c1 = true <;> simp [h1]
        · rcases ih c hc' with h' | h'
          · exact Or.inl (List.mem_cons_of_mem c1 h')
          · exact Or.inr h'

theorem replaceAmp_mem :
    ∀ z, ∀ c ∈ replaceAmp z, c ∈ z ∨ c = '&' := by
  intro z
  induction z using replaceAmp.induct with
  | case1 rest ih =>
    intro c hc
    rw [replaceAmp.eq_1] at hc
    rcases List.mem_cons.mp hc with rfl | hc'
    · exact Or.inr rfl
    · rcases ih c hc' with h' | h'
      · exact Or.inl (by simp [h'])
      · exact Or.inr h'
  | case2 c1 rest hne ih =>
    intro c hc
    rw [replaceAmp.eq_2 _ _ hne] at hc
    rcases List.mem_cons.mp hc with rfl | hc'
    · exact Or.inl (List.mem_cons_self _ _)
    · rcases ih c hc' with h' | h'
      · exact Or.inl (List.mem_cons_of_mem c1 h')
      · exact Or.inr h'
  | case3 =>
    intro c hc
    exact absurd hc (List.not_mem_nil c)

theorem replaceAmp_eq_self :
    ∀ l, containsAmp l = false → replaceAmp l = l := by
  intro l
  induction l using replaceAmp.induct with
  | case1 rest ih =>
    intro h
    exact absurd h (by simp [containsAmp, ampHere])
  | case2 c1 rest hne ih =>
    intro h
    simp only [containsAmp, Bool.or_eq_false_iff] at h
    rw [replaceAmp.eq_2 _ _ hne, ih h.2]
  | case3 =>
    intro h
    rfl

theorem collapseBy_head (p : Char → Bool) :
    ∀ r c, (collapseBy p (c :: r)).head? = some (if p c then ' ' else c) := by
  intro r
  induction r with
  | nil =>
    intro c
    by_cases h : p c = true <;> simp [collapseBy, h]
  | cons c2 r2 ih =>
    intro c
    by_cases h : (p c && p c2) = true
    · rw [show collapseBy p (c :: c2 :: r2) = collapseBy p (c2 :: r2) by
        simp [collapseBy, h]]
      rw [ih c2]
      simp only [Bool.and_eq_true] at h
      simp [h.1, h.2]
    · rw [show collapseBy p (c :: c2 :: r2) =
          (if p c then ' ' else c) :: collapseBy p (c2 :: r2) by
        simp [collapseBy, h]]
      rfl

theorem collapseBy_noRun (p : Char → Bool) :
    ∀ z, NoRun p (collapseBy p z) := by
  intro z
  induction z with
  | nil => exact ⟨by intro c hc; exact absurd hc (List.not_mem_nil c), by simp [collapseBy]⟩
  | cons c1 rest ih =>
    cases rest with
    | nil =>
      constructor
      · intro c hc hp
        by_cases h : p c1 = true
        · simp only [collapseBy, if_pos h, List.mem_singleton] at hc
          exact hc
        · simp only [collapseBy, if_neg h, List.mem_singleton] at hc
          subst hc
          exact absurd hp h
      · by_cases h : p c1 = true <;> simp [collapseBy, h]
    | cons c2 r2 =>
      by_cases h : (p c1 && p c2) = true
      · rw [show collapseBy p (c1 :: c2 :: r2) = collapseBy p (c2 :: r2) by
          simp [collapseBy, h]]
        exact ih
      · rw [show collapseBy p (c1 :: c2 :: r2) =
            (if p c1 then ' ' else c1) :: collapseBy p (c2 :: r2) by
          simp [collapseBy, h]]
        constructor
        · intro c hc hp
          rcases List.mem_cons.mp hc with rfl | hc'
          · by_cases h1 : p c1 = true
            · simp [h1]
            · rw [if_neg h1] at hp
              exact absurd hp h1
          · exact ih.1 c hc' hp
        · rw [List.chain'_cons']
          refine ⟨?_, ih.2⟩
          intro y hy
          rw [collapseBy_head p r2 c2] at hy
          simp only [Option.mem_def, Option.some.injEq] at hy
          subst hy
          simp only [Bool.and_eq_true, not_and] at h ⊢
          intro h1 h2
          by_cases hc1 : p c1 = true
          · have hc2 := h hc1
            by_cases hpc2 : p c2 = true
            · exact absurd hpc2 hc2
            · simp [hpc2] at h2
          · simp [hc1] at h1

theorem collapseBy_eq_self (p : Char → Bool) :
    ∀ y, NoRun p y → collapseBy p y = y := by
  intro y
  induction y with
  | nil => intro h; rfl
  | cons c1 rest ih =>
    cases rest with
    | nil =>
      intro h
      by_cases hp : p c1 = true
      · have h1 : c1 = ' ' := h.1 c1 (List.mem_cons_self _ _) hp
        simp [collapseBy, hp, h1]
      · simp [collapseBy, hp]
    | cons c2 r2 =>
      intro h
      have hnr : ¬(p c1 = true ∧ p c2 = true) := (List.chain'_cons.mp h.2).1
      have hb : (p c1 && p c2) = true → False := by
        intro hb'
        exact hnr (by simpa [Bool.and_eq_true] using hb')
      rw [show collapseBy p (c1 :: c2 :: r2) =
          (if p c1 then ' ' else c1) :: collapseBy p (c2 :: r2) by
        simp only [collapseBy, ite_eq_right_iff]
        intro hb'
        exact absurd hb' hb]
      have htail : NoRun p (c2 :: r2) :=
        ⟨fun c hc hp => h.1 c (List.mem_cons_of_mem _ hc) hp, (List.chain'_cons.mp h.2).2⟩
      rw [ih htail]
      by_cases hp : p c1 = true
      · rw [if_pos hp, h.1 c1 (List.mem_cons_self _ _) hp]
      · rw [if_neg hp]

theorem noRun_dropWhile (p q : Char → Bool) (l : List Char) (h : NoRun p l) :
    NoRun p (l.dropWhile q) := by
  constructor
  · intro c hc hp
    exact h.1 c ((List.dropWhile_sublist q).subset hc) hp
  · exact h.2.suffix ⟨l.takeWhile q, List.takeWhile_append_dropWhile q l⟩

theorem noRun_reverse (p : Char → Bool) (l : List Char) (h : NoRun p l) :
    NoRun p l.reverse := by
  constructor
  · intro c hc hp
    exact h.1 c (List.mem_reverse.mp hc) hp
  · rw [List.chain'_reverse]
    exact h.2.imp (fun a b hab hba => hab ⟨hba.2, hba.1⟩)

theorem noRun_dropEnd (p q : Char → Bool) (l : List Char) (h : NoRun p l) :
    NoRun p (dropEndBy q l) :=
  noRun_reverse _ _ (noRun_dropWhile _ _ _ (noRun_reverse _ _ h))

theorem noRun_stripBy (p q : Char → Bool) (l : List Char) (h : NoRun p l) :
    NoRun p (stripBy q l) :=
  noRun_dropEnd _ _ _ (noRun_dropWhile _ _ _ h)

theorem dropWhile_head_not (q : Char → Bool) :
    ∀ (l : List Char) (c : Char), (l.dropWhile q).head? = some c → q c = false := by
  intro l
  induction l with
  | nil => intro c h; simp at h
  | cons a t ih =>
    intro c h
    by_cases ha : q a = true
    · rw [List.dropWhile_cons, if_pos ha] at h
      exact ih c h
    · rw [List.dropWhile_cons, if_neg ha] at h
      simp only [List.head?_cons, Option.some.injEq] at h
      rw [← h]
      exact Bool.not_eq_true _ |>.mp ha

theorem dropWhile_eq_self_of_head (q : Char → Bool) :
    ∀ (l : List Char), (∀ c, l.head? = some c → q c = false) → l.dropWhile q = l := by
  intro l h
  cases l with
  | nil => rfl
  | cons a t =>
    have ha := h a rfl
    rw [List.dropWhile_cons, ha]
    simp

theorem dropWhile_idem (q : Char → Bool) (l : List Char) :
    (l.dropWhile q).dropWhile q = l.dropWhile q :=
  dropWhile_eq_self_of_head q _ (fun c h => dropWhile_head_not q l c h)

theorem dropEnd_decomp (q : Char → Bool) (l : List Char) :
    dropEndBy q l ++ (l.reverse.takeWhile q).reverse = l := by
  rw [dropEndBy, ← List.reverse_append, List.takeWhile_append_dropWhile, List.reverse_reverse]

theorem dropEnd_head (q : Char → Bool) (l : List Char) :
    (dropEndBy q l).head? = none ∨ (dropEndBy q l).head? = l.head? := by
  cases hd : dropEndBy q l with
  | nil => exact Or.inl rfl
  | cons a t =>
    right
    have hdec := dropEnd_decomp q l
    rw [hd] at hdec
    rw [← hdec]
    simp

theorem dropEnd_idem (q : Char → Bool) (l : List Char) :
    dropEndBy q (dropEndBy q l) = dropEndBy q l := by
  unfold dropEndBy
  rw [List.reverse_reverse, dropWhile_idem]

theorem stripBy_idem (q : Char → Bool) (l : List Char) :
    stripBy q (stripBy q l) = stripBy q l := by
  unfold stripBy
  have h1 : (dropEndBy q (l.dropWhile q)).dropWhile q = dropEndBy q (l.dropWhile q) := by
    apply dropWhile_eq_self_of_head
    intro c hc
    rcases dropEnd_head q (l.dropWhile q) with h | h
    · rw [h] at hc
      exact absurd hc (by simp)
    · rw [h] at hc
      exact dropWhile_head_not q l c hc
  rw [h1, dropEnd_idem]

theorem dropEndBy_subset (q : Char → Bool) (l : List Char) :
    ∀ c ∈ dropEndBy q l, c ∈ l := by
  intro c hc
  unfold dropEndBy at hc
  exact List.mem_reverse.mp
    ((List.dropWhile_sublist q).subset (List.mem_reverse.mp hc))

theorem stripBy_subset (q : Char → Bool) (l : List Char) :
    ∀ c ∈ stripBy q l, c ∈ l := by
  intro c hc
  exact (List.dropWhile_sublist q).subset (dropEndBy_subset q (l.dropWhile q) c hc)

theorem cleanText_no_zw (l : List Char) :
    ∀ c ∈ cleanText l, isZW c = false := by
  intro c hc
  have hc2 := stripBy_subset _ _ c hc
  rcases collapseBy_mem isHWS _ c hc2 with h1 | rfl
  · rcases replaceAmp_mem _ c h1 with h2 | rfl
    · have := (List.mem_filter.mp h2).2
      simpa using this
    · decide
  · decide

theorem cleanText_idem (l : List Char) (h : containsAmp (cleanText l) = false) :
    cleanText (cleanText l) = cleanText l := by
  have hzw : (cleanText l).filter (fun c => !isZW c) = cleanText l :=
    List.filter_eq_self.mpr (fun c hc => by simp [cleanText_no_zw l c hc])
  have hamp : replaceAmp ((cleanText l).filter (fun c => !isZW c)) = cleanText l := by
    rw [hzw]
    exact replaceAmp_eq_self _ h
  have hnr : NoRun isHWS (cleanText l) :=
    noRun_stripBy isHWS isPyWS _ (collapseBy_noRun isHWS _)
  show stripBy isPyWS (collapseBy isHWS
    (unidecodeLatin (nfcNormalize (replaceAmp ((cleanText l).filter (fun c => !isZW c)))))) =
      cleanText l
  rw [show unidecodeLatin (nfcNormalize (replaceAmp ((cleanText l).filter (fun c => !isZW c)))) =
      replaceAmp ((cleanText l).filter (fun c => !isZW c)) from rfl]
  rw [hamp, collapseBy_eq_self isHWS _ hnr]
  exact stripBy_idem isPyWS
    (collapseBy isHWS (unidecodeLatin (nfcNormalize (replaceAmp (l.filter (fun c => !isZW c))))))

/-- Counterexample for C3: `clean_text` is not idempotent — replacing
`&amp;` with `&` in `"&amp;amp;"` manufactures a fresh `&amp;` that a
second pass replaces again. -/
theorem c3_normalize_counterexample :
    cleanTextS (cleanTextS "&amp;amp;") ≠ cleanTextS "&amp;amp;" := by
  decide

/-- C3 amended: the normalizer is idempotent on every (ASCII) input whose
normalized form contains no further `&amp;` occurrence — equivalently,
whenever the entity replacement cannot cascade — and empty or `None` input
yields the empty string.  (The unrestricted claim fails on inputs like
`"&amp;amp;"`.) -/
theorem c3_normalize_idem_amended (x : String)
    (hascii : ∀ c ∈ x.data, c.toNat < 128)
    (hfix : containsAmp (cleanText x.data) = false) :
    cleanTextS (cleanTextS x) = cleanTextS x ∧
    cleanTextOpt none = "" ∧ cleanTextS "" = "" := by
  refine ⟨?_, rfl, rfl⟩
  by_cases hx : x = ""
  · subst hx
    rfl
  · simp only [cleanTextS, if_neg hx]
    by_cases hy : String.mk (cleanText x.data) = ""
    · rw [if_pos hy, ← hy]
    · rw [if_neg hy]
      exact congrArg String.mk (cleanText_idem x.data hfix)

/-- Witness for C3 (amended): an ASCII string with a single `&amp;` entity
normalizes to a fixed point. -/
theorem c3_normalize_idem_amended_witness :
    (∀ c ∈ "Hello &amp; World".data, c.toNat < 128) ∧
    containsAmp (cleanText "Hello &amp; World".data) = false ∧
    cleanTextS (cleanTextS "Hello &amp; World") = cleanTextS "Hello &amp; World" :=
  ⟨by decide, by decide,
    (c3_normalize_idem_amended "Hello &amp; World" (by decide) (by decide)).1⟩

end SFT
